import Mathlib

/-!
Shallow embedding of the manifest manager (`src/manifest/manifest_manager.go`)
of the kopia repository, together with theorems settling the frozen claims
about its specification.

Modelling conventions:
* `time.Time` values are modelled as `Nat`; `t1.After(t2)` is `t2 < t1`.
* Go's `map[string]*manifestEntry` (the Entry Index) is modelled as a
  `List manifestEntry` keyed by the `ID` field; map lookup is `idxLookup`
  (first entry with the given id), map assignment replaces the entry with
  the same id or appends, map deletion filters the id out.  All operations
  of the source preserve uniqueness of ids, so this is a faithful model of
  the map's lookup semantics.
* Go's `map[string]string` label maps are association lists; Go's zero-value
  lookup `a[k]` (missing key reads as the empty string) is `goLookup`.
* The block store (`block.Manager`) and the JSON / gzip codecs are external
  collaborators: they are parameters (`BlockStore`, `Codec`) whose methods
  are pure functions returning `Except`, mirroring Go's `(value, error)`.
* Randomness (`rand.Read`), the clock (`time.Now`) and JSON marshalling of
  the caller's payload are externalized as explicit arguments of `Put`.
* Fallible Go functions that mutate the receiver return the mutated state
  together with an `Option String` error, exactly as the Go methods leave
  `m` mutated when they return a non-nil error.
-/

namespace KopiaManifest

/-- One manifest entry, from the `manifestEntry` struct of the source.
`Content` is the opaque JSON payload as bytes. -/
structure manifestEntry where
  ID : String
  ModTime : Nat
  Labels : List (String × String)
  Deleted : Bool
  Content : List Nat
  deriving DecidableEq, Repr

/-- The read-only projection returned by lookups, from `EntryMetadata`. -/
structure EntryMetadata where
  ID : String
  ModTime : Nat
  Length : Nat
  Labels : List (String × String)
  deriving DecidableEq, Repr

/-- Go map lookup `a[k]` on a label map: missing keys read as `""`. -/
def goLookup (a : List (String × String)) (k : String) : String :=
  match a.find? (fun kv => kv.fst == k) with
  | some kv => kv.snd
  | none => ""

/-- Lookup that distinguishes a missing key from an empty value; used to
state presence of a key/value pair. -/
def lookupL (a : List (String × String)) (k : String) : Option String :=
  (a.find? (fun kv => kv.fst == k)).map (fun kv => kv.snd)

/-- `copyLabels` of the source: a deep copy of a label map.  In a pure model
a copy is the map itself. -/
def copyLabels (m : List (String × String)) : List (String × String) := m

/-- `matchesLabels(a, b)` of the source: every key of `b` reads the same in
`a`, with Go's zero-value lookup. -/
def matchesLabels (a b : List (String × String)) : Bool :=
  b.all (fun kv => goLookup a kv.fst == kv.snd)

/-- Modelled from the spec's words for comparison with `matchesLabels`:
"all query key/value pairs present and equal in the entry's labels".  A pair
matches only when the key is actually present. -/
def specMatchesLabels (a b : List (String × String)) : Bool :=
  b.all (fun kv => lookupL a kv.fst == some kv.snd)

/-- `cloneEntryMetadata` of the source. -/
def cloneEntryMetadata (e : manifestEntry) : EntryMetadata :=
  { ID := e.ID, ModTime := e.ModTime, Length := e.Content.length,
    Labels := copyLabels e.Labels }

/-- Lookup in the Entry Index: the entry with the given id (`m.entries[id]`). -/
def idxLookup (idx : List manifestEntry) (id : String) : Option manifestEntry :=
  idx.find? (fun p => p.ID == id)

/-- Replace every entry whose id equals `e.ID` by `e` (the effect of the Go
map assignment `m.entries[e.ID] = e` when the key is present). -/
def replaceID (idx : List manifestEntry) (e : manifestEntry) : List manifestEntry :=
  idx.map (fun p => if p.ID == e.ID then e else p)

/-- Go map assignment `m.entries[e.ID] = e`: replace when present, else add. -/
def idxInsert (idx : List manifestEntry) (e : manifestEntry) : List manifestEntry :=
  match idx.find? (fun p => p.ID == e.ID) with
  | none => idx ++ [e]
  | some _ => replaceID idx e

/-- Go map deletion `delete(m.entries, id)`. -/
def idxErase (idx : List manifestEntry) (id : String) : List manifestEntry :=
  idx.filter (fun p => p.ID != id)

/-- `mergeEntry` of the source: a new entry wins only when its `ModTime` is
strictly later than the incumbent's. -/
def mergeEntry (idx : List manifestEntry) (e : manifestEntry) : List manifestEntry :=
  match idx.find? (fun p => p.ID == e.ID) with
  | none => idx ++ [e]
  | some prev => if prev.ModTime < e.ModTime then replaceID idx e else idx

/-- The post-merge reconciliation of `loadManifestBlocks`: drop every entry
whose winning version is a tombstone. -/
def removeTombstones (idx : List manifestEntry) : List manifestEntry :=
  idx.filter (fun e => !e.Deleted)

/-- Merging a sequence of entries into an index, in order. -/
def mergeList (idx : List manifestEntry) (l : List manifestEntry) : List manifestEntry :=
  l.foldl mergeEntry idx

/-- The merge rule on a single map cell: `none` is an absent incumbent. -/
def semMerge (o : Option manifestEntry) (e : manifestEntry) : Option manifestEntry :=
  match o with
  | none => some e
  | some prev => if prev.ModTime < e.ModTime then some e else some prev

/-- The ids of an index, in order. -/
def idxIDs (idx : List manifestEntry) : List String :=
  idx.map (fun e => e.ID)

/-- `Find` of the source: filter the index by `matchesLabels`, project to
metadata, sort ascending by `ModTime`.  `sort.Slice` guarantees exactly a
permutation sorted by the comparator; `List.insertionSort` realizes that
guarantee. -/
def Find (idx : List manifestEntry) (labels : List (String × String)) :
    List EntryMetadata :=
  List.insertionSort (fun x y => x.ModTime ≤ y.ModTime)
    ((idx.filter (fun e => matchesLabels e.Labels labels)).map cloneEntryMetadata)

/-- The mutable fields of the `Manager` struct: the Entry Index
(`entries`), Known Blocks (`blockIDs`) and the Mutation Log
(`pendingEntries`). -/
structure ManagerState where
  entries : List manifestEntry
  blockIDs : List String
  pendingEntries : List manifestEntry
  deriving DecidableEq, Repr

/-- The JSON and gzip codecs the source calls (`encoding/json`,
`compress/gzip`): external collaborators, modelled as parameters.
`jsonParse` stands for unmarshalling a manifest document (its `Entries`
field), `gzipDecode` for `gzip.NewReader` plus full decompression. -/
structure Codec where
  jsonParse : List Nat → Except String (List manifestEntry)
  gzipDecode : List Nat → Except String (List Nat)

/-- The block-store collaborator (`block.Manager`): content-addressed write
of a serialized pending-entry list, raw reads, listing by the manifest
namespace, deletion, and the store's own flush. -/
structure BlockStore where
  writeBlock : List manifestEntry → Except String String
  getBlock : String → Except String (List Nat)
  listBlocks : Except String (List String)
  deleteBlock : String → Option String
  storeFlush : Option String

/-- `autoCompactionBlockCount` of the source. -/
def autoCompactionBlockCount : Nat := 16

/-- Result of `flushPendingEntriesLocked`: the state as the method leaves
it, the returned block id (`""` when nothing was written), whether
`WriteBlock` succeeded, and the error. -/
structure FlushOut where
  state : ManagerState
  blockID : String
  wrote : Bool
  err : Option String

/-- `flushPendingEntriesLocked` of the source: an empty Mutation Log writes
nothing and returns the empty id; otherwise the serialized log is handed to
`WriteBlock`, and only on success is the log cleared.  Serialization
(JSON encode + gzip) failures are folded into `writeBlock`'s error. -/
def flushPendingEntriesLocked (bs : BlockStore) (m : ManagerState) : FlushOut :=
  if m.pendingEntries.isEmpty then
    { state := m, blockID := "", wrote := false, err := none }
  else
    match bs.writeBlock m.pendingEntries with
    | .error e => { state := m, blockID := "", wrote := false, err := some e }
    | .ok blockID =>
      { state := { m with pendingEntries := [] }, blockID := blockID,
        wrote := true, err := none }

/-- `Flush` of the source: flush the pending entries and, when a block was
written, append its id to Known Blocks. -/
def Flush (bs : BlockStore) (m : ManagerState) : ManagerState × Option String :=
  match flushPendingEntriesLocked bs m with
  | { state := m2, blockID := _, wrote := _, err := some e } => (m2, some e)
  | { state := m2, blockID := b, wrote := _, err := none } =>
    if b == "" then (m2, none)
    else ({ m2 with blockIDs := m2.blockIDs ++ [b] }, none)

/-- `Put` of the source.  The fresh random id, the current UTC time and the
JSON-marshalled payload bytes are external inputs, passed as arguments.
The `type` label is required; on success the new live entry is appended to
the Mutation Log and inserted into the Entry Index. -/
def Put (m : ManagerState) (labels : List (String × String)) (content : List Nat)
    (id : String) (now : Nat) : Except String (String × ManagerState) :=
  if goLookup labels "type" == "" then .error "type label is required"
  else
    let e : manifestEntry :=
      { ID := id, ModTime := now, Labels := copyLabels labels, Deleted := false,
        Content := content }
    .ok (id, { m with
      pendingEntries := m.pendingEntries ++ [e],
      entries := idxInsert m.entries e })

/-- `GetMetadata` of the source. -/
def GetMetadata (m : ManagerState) (id : String) : Except String EntryMetadata :=
  match idxLookup m.entries id with
  | none => .error "not found"
  | some e =>
    .ok { ID := id, ModTime := e.ModTime, Length := e.Content.length,
          Labels := copyLabels e.Labels }

/-- `GetRaw` of the source. -/
def GetRaw (m : ManagerState) (id : String) : Except String (List Nat) :=
  match idxLookup m.entries id with
  | none => .error "not found"
  | some e => .ok e.Content

/-- `Delete` of the source: unknown ids are a no-op; otherwise the entry is
erased from the Entry Index and a tombstone is appended to the Mutation
Log. -/
def Delete (m : ManagerState) (id : String) (now : Nat) : ManagerState :=
  match idxLookup m.entries id with
  | none => m
  | some _ =>
    { m with
      entries := idxErase m.entries id,
      pendingEntries := m.pendingEntries ++
        [{ ID := id, ModTime := now, Labels := [], Deleted := true, Content := [] }] }

/-- Errors of `loadManifestBlock`, one constructor per `fmt.Errorf` site;
each carries the offending block id. -/
inductive BlockLoadError where
  | readError (blockID : String) (inner : String)
  | unpackError (blockID : String) (inner : String)
  | parseError (blockID : String) (inner : String)
  deriving DecidableEq, Repr

/-- The block id an error carries. -/
def BlockLoadError.bid : BlockLoadError → String
  | .readError b _ => b
  | .unpackError b _ => b
  | .parseError b _ => b

/-- Rendering of a `BlockLoadError` as the source's error string. -/
def BlockLoadError.render : BlockLoadError → String
  | .readError b e => "unable to read block " ++ b ++ ": " ++ e
  | .unpackError b e => "unable to unpack block " ++ b ++ ": " ++ e
  | .parseError b e => "unable to parse block " ++ b ++ ": " ++ e

/-- `loadManifestBlock` of the source: fetch the raw bytes; when the block
is longer than two bytes and starts with the byte 123 (an opening brace),
parse it directly as JSON; otherwise unpack it as gzip and parse the
result. -/
def loadManifestBlock (c : Codec) (bs : BlockStore) (blockID : String) :
    Except BlockLoadError (List manifestEntry) :=
  match bs.getBlock blockID with
  | .error e => .error (.readError blockID e)
  | .ok blk =>
    if 2 < blk.length && blk.headD 0 == 123 then
      match c.jsonParse blk with
      | .error e => .error (.parseError blockID e)
      | .ok man => .ok man
    else
      match c.gzipDecode blk with
      | .error e => .error (.unpackError blockID e)
      | .ok unz =>
        match c.jsonParse unz with
        | .error e => .error (.parseError blockID e)
        | .ok man => .ok man

/-- `loadBlocksInParallel` of the source, sequentialized: every block is
fetched and parsed, and any failure fails the whole load (the source
forwards the first error received from its worker pool; the workers have no
side effects, so the fetch order is immaterial). -/
def fetchAll (c : Codec) (bs : BlockStore) :
    List String → Except BlockLoadError (List (List manifestEntry))
  | [] => .ok []
  | b :: rest =>
    match loadManifestBlock c bs b with
    | .error e => .error e
    | .ok man =>
      match fetchAll c bs rest with
      | .error e => .error e
      | .ok ms => .ok (man :: ms)

/-- `loadManifestBlocks` of the source: record the block ids into Known
Blocks, fetch and parse all blocks, merge every entry in order, then remove
tombstones.  The merge order of the parallel load is represented by the
block list order (the claims quantify over reorderings separately). -/
def loadManifestBlocks (c : Codec) (bs : BlockStore) (m : ManagerState)
    (blocks : List String) : ManagerState × Option String :=
  match fetchAll c bs blocks with
  | .error e =>
    ({ m with blockIDs := m.blockIDs ++ blocks },
      some ("unable to load manifest blocks: " ++ e.render))
  | .ok manifests =>
    ({ m with
        blockIDs := m.blockIDs ++ blocks
        entries := removeTombstones (mergeList m.entries manifests.flatten) },
      none)

/-- Result of `compactLocked`: the state as the method leaves it, the id of
the block the compaction flush wrote (when one was written), the ids
`DeleteBlock` was invoked on, and the error. -/
structure CompactOut where
  state : ManagerState
  written : Option String
  deleted : List String
  err : Option String

/-- The deletion loop of `compactLocked` over Known Blocks: the block just
written (`keep`) is skipped; the loop stops at the first failing delete.
Returns the ids `DeleteBlock` was invoked on and the error. -/
def deleteLoop (bs : BlockStore) (keep : String) :
    List String → List String × Option String
  | [] => ([], none)
  | b :: rest =>
    if b == keep then deleteLoop bs keep rest
    else
      match bs.deleteBlock b with
      | some e => ([b], some ("unable to delete block " ++ b ++ ": " ++ e))
      | none =>
        match deleteLoop bs keep rest with
        | (ds, e2) => (b :: ds, e2)

/-- The tail of `compactLocked` after a successful flush: append the new id
to Known Blocks, run the deletion loop, and on success replace Known Blocks
with the one-element list of the new id. -/
def compactFinish (bs : BlockStore) (m2 : ManagerState) (b : String)
    (w : Bool) : CompactOut :=
  match deleteLoop bs b (m2.blockIDs ++ [b]) with
  | (ds, some e) =>
    { state := { m2 with blockIDs := m2.blockIDs ++ [b] },
      written := if w then some b else none, deleted := ds, err := some e }
  | (ds, none) =>
    { state := { m2 with blockIDs := [b] },
      written := if w then some b else none, deleted := ds, err := none }

/-- `compactLocked` of the source: already compact when exactly one block is
known and the Mutation Log is empty; otherwise every Entry Index entry is
appended to the Mutation Log, the log is flushed, the (possibly empty) new
id is appended to Known Blocks, all other known blocks are deleted, and
Known Blocks becomes the one-element list of the new id. -/
def compactLocked (bs : BlockStore) (m : ManagerState) : CompactOut :=
  if m.blockIDs.length == 1 && m.pendingEntries.isEmpty then
    { state := m, written := none, deleted := [], err := none }
  else
    match flushPendingEntriesLocked bs
        { m with pendingEntries := m.pendingEntries ++ m.entries } with
    | { state := m2, blockID := _, wrote := _, err := some e } =>
      { state := m2, written := none, deleted := [], err := some e }
    | { state := m2, blockID := b, wrote := w, err := none } =>
      compactFinish bs m2 b w

/-- `Compact` of the source. -/
def Compact (bs : BlockStore) (m : ManagerState) : CompactOut :=
  compactLocked bs m

/-- The auto-compaction tail of `load`: when more blocks than the threshold
were found, compact and then flush the block store. -/
def loadAutoCompact (bs : BlockStore) (m3 : ManagerState)
    (blocks : List String) : ManagerState × Option String :=
  if autoCompactionBlockCount < blocks.length then
    match compactLocked bs m3 with
    | { state := ms, written := _, deleted := _, err := some e } =>
      (ms, some ("unable to compact manifest blocks: " ++ e))
    | { state := ms, written := _, deleted := _, err := none } =>
      match bs.storeFlush with
      | some e =>
        (ms, some ("unable to flush blocks after auto-compaction: " ++ e))
      | none => (ms, none)
  else (m3, none)

/-- The body of `load` after the listing succeeded: clear the Entry Index,
load the listed blocks, then maybe auto-compact. -/
def loadFromBlocks (c : Codec) (bs : BlockStore) (m1 : ManagerState)
    (blocks : List String) : ManagerState × Option String :=
  match loadManifestBlocks c bs { m1 with entries := [] } blocks with
  | (m3, some e) => (m3, some e)
  | (m3, none) => loadAutoCompact bs m3 blocks

/-- The body of `load` after the initial flush succeeded. -/
def loadListed (c : Codec) (bs : BlockStore) (m1 : ManagerState) :
    ManagerState × Option String :=
  match bs.listBlocks with
  | .error e =>
    ({ m1 with entries := [] }, some ("unable to list manifest blocks: " ++ e))
  | .ok blocks => loadFromBlocks c bs m1 blocks

/-- `load` of the source: flush pending entries, clear the Entry Index, list
the manifest blocks, load and merge them, and auto-compact when more than
`autoCompactionBlockCount` blocks were found. -/
def load (c : Codec) (bs : BlockStore) (m : ManagerState) :
    ManagerState × Option String :=
  match Flush bs m with
  | (m1, some e) => (m1, some e)
  | (m1, none) => loadListed c bs m1

/-- `NewManager` of the source: a fresh state that immediately loads. -/
def NewManager (c : Codec) (bs : BlockStore) : Except String ManagerState :=
  match load c bs { entries := [], blockIDs := [], pendingEntries := [] } with
  | (m, none) => .ok m
  | (_, some e) => .error e

/-- The sort comparator of `Find` is total. -/
instance : IsTotal EntryMetadata (fun x y => x.ModTime ≤ y.ModTime) :=
  ⟨fun a b => Nat.le_total a.ModTime b.ModTime⟩

/-- The sort comparator of `Find` is transitive. -/
instance : IsTrans EntryMetadata (fun x y => x.ModTime ≤ y.ModTime) :=
  ⟨fun _ _ _ h1 h2 => Nat.le_trans h1 h2⟩

/-- The Entry Index holds no tombstone. -/
def noTombstones (idx : List manifestEntry) : Prop :=
  ∀ e ∈ idx, e.Deleted = false

/-- Every state-changing public operation leaves the Entry Index
tombstone-free when started at `m`.  (`GetMetadata`, `GetRaw` and `Find` do
not mutate the state at all: they are pure functions of it.) -/
def preservesTombstoneFreedom (m : ManagerState) : Prop :=
  (∀ labels content id now id2 m2,
      Put m labels content id now = .ok (id2, m2) → noTombstones m2.entries) ∧
    (∀ id now, noTombstones (Delete m id now).entries) ∧
    (∀ bs, noTombstones (Flush bs m).fst.entries) ∧
    (∀ bs, noTombstones (Compact bs m).state.entries) ∧
    (∀ c bs, noTombstones (load c bs m).fst.entries)

/-- The flush contract: on success the Mutation Log is cleared, the Entry
Index untouched, and exactly one id is appended to Known Blocks when the
log was non-empty (none when it was empty); on failure the manager is left
exactly as it was on entry. -/
def flushContract (bs : BlockStore) (m : ManagerState) : Prop :=
  ((Flush bs m).snd = none →
      (Flush bs m).fst.pendingEntries = [] ∧
        (Flush bs m).fst.entries = m.entries ∧
        (m.pendingEntries = [] → (Flush bs m).fst = m) ∧
        (m.pendingEntries ≠ [] →
          ∃ bid, (Flush bs m).fst.blockIDs = m.blockIDs ++ [bid])) ∧
    (∀ s, (Flush bs m).snd = some s → (Flush bs m).fst = m)

/-- A live entry with id "a" at time 5. -/
def cexLive : manifestEntry :=
  { ID := "a", ModTime := 5, Labels := [("type", "t")], Deleted := false,
    Content := [1] }

/-- A tombstone for id "a" at the same time 5. -/
def cexTomb : manifestEntry :=
  { ID := "a", ModTime := 5, Labels := [], Deleted := true, Content := [] }

/-- A live entry with id "a" at time 1. -/
def went1 : manifestEntry :=
  { ID := "a", ModTime := 1, Labels := [("type", "t")], Deleted := false,
    Content := [1] }

/-- A live entry with id "b" at time 2. -/
def went2 : manifestEntry :=
  { ID := "b", ModTime := 2, Labels := [("type", "t")], Deleted := false,
    Content := [2] }

/-- A live entry with id "a" at time 9, newer than `went1`. -/
def went3 : manifestEntry :=
  { ID := "a", ModTime := 9, Labels := [("type", "u")], Deleted := false,
    Content := [3] }

/-- An entry whose labels hold only the `type` key. -/
def c2Entry : manifestEntry :=
  { ID := "e1", ModTime := 1, Labels := [("type", "t")], Deleted := false,
    Content := [2, 3] }

/-- A query with an empty value: the key is absent from `c2Entry.Labels`. -/
def c2Query : List (String × String) := [("host", "")]

/-- A block store on which every operation fails. -/
def failStore : BlockStore :=
  { writeBlock := fun _ => .error "write failed",
    getBlock := fun _ => .error "read failed",
    listBlocks := .error "list failed",
    deleteBlock := fun _ => some "delete failed",
    storeFlush := some "store flush failed" }

/-- A block store on which every operation succeeds; writes are answered
with the id "b-new". -/
def okStore : BlockStore :=
  { writeBlock := fun _ => .ok "b-new",
    getBlock := fun _ => .error "unused",
    listBlocks := .ok [],
    deleteBlock := fun _ => none,
    storeFlush := none }

/-- A codec on which every decode fails. -/
def trivialCodec : Codec :=
  { jsonParse := fun _ => .error "bad json",
    gzipDecode := fun _ => .error "bad gzip" }

/-- A codec that accepts the two-byte document of bytes 123, 125 (an empty
JSON object) and whose gzip decoder, like `gzip.NewReader`, rejects input
that does not start with the two gzip magic bytes 31, 139. -/
def c7Codec : Codec :=
  { jsonParse := fun blk => if blk = [123, 125] then .ok [] else .error "bad json",
    gzipDecode := fun blk =>
      if blk.take 2 = [31, 139] then .ok (blk.drop 2)
      else .error "invalid gzip header" }

/-- A block store holding one block "b1" whose bytes are 123, 125. -/
def c7Store : BlockStore :=
  { writeBlock := fun _ => .error "unused",
    getBlock := fun b => if b = "b1" then .ok [123, 125] else .error "unknown block",
    listBlocks := .ok [],
    deleteBlock := fun _ => none,
    storeFlush := none }

/-- A manager state holding one live entry and nothing pending. -/
def c3State : ManagerState :=
  { entries := [went1], blockIDs := [], pendingEntries := [] }

/-- A manager state with a non-empty Mutation Log. -/
def c5State : ManagerState :=
  { entries := [went1], blockIDs := ["b0"], pendingEntries := [went2] }

/-- A manager state that is already compact. -/
def c6State : ManagerState :=
  { entries := [went1], blockIDs := ["b0"], pendingEntries := [] }

/-- A manager state with one known block and one pending entry. -/
def c8State : ManagerState :=
  { entries := [], blockIDs := ["b0"], pendingEntries := [went2] }

/-- A manager state with two known blocks and nothing live or pending. -/
def c10State : ManagerState :=
  { entries := [], blockIDs := ["b0", "b1"], pendingEntries := [] }

/-- The state of a freshly constructed manager. -/
def emptyState : ManagerState :=
  { entries := [], blockIDs := [], pendingEntries := [] }

/-! Helper lemmas about index lookup and the merge rule. -/

theorem idxLookup_nil (id : String) : idxLookup [] id = none := rfl

theorem idxLookup_cons (a : manifestEntry) (t : List manifestEntry) (id : String) :
    idxLookup (a :: t) id = if a.ID = id then some a else idxLookup t id := by
  by_cases h : a.ID = id
  · simp [idxLookup, List.find?_cons, h]
  · simp [idxLookup, List.find?_cons, h]

theorem idxLookup_append (l1 l2 : List manifestEntry) (id : String) :
    idxLookup (l1 ++ l2) id =
      (idxLookup l1 id).orElse fun _ => idxLookup l2 id := by
  induction l1 with
  | nil => simp [idxLookup]
  | cons a t ih =>
    rw [List.cons_append, idxLookup_cons, idxLookup_cons]
    by_cases h : a.ID = id
    · simp [h]
    · simp [h, ih]

theorem idxLookup_replaceID_ne (idx : List manifestEntry) (e : manifestEntry)
    (id : String) (h : id ≠ e.ID) :
    idxLookup (replaceID idx e) id = idxLookup idx id := by
  induction idx with
  | nil => rfl
  | cons a t ih =>
    simp only [replaceID, List.map_cons]
    by_cases ha : a.ID = e.ID
    · rw [if_pos (by simpa using ha), idxLookup_cons, idxLookup_cons,
        if_neg (fun he => h he.symm), if_neg (fun hx => h (ha ▸ hx).symm)]
      exact ih
    · rw [if_neg (by simpa using ha), idxLookup_cons, idxLookup_cons]
      by_cases hx : a.ID = id
      · rw [if_pos hx, if_pos hx]
      · rw [if_neg hx, if_neg hx]
        exact ih

theorem idxLookup_replaceID_found (idx : List manifestEntry) (e prev : manifestEntry)
    (h : idx.find? (fun p => p.ID == e.ID) = some prev) :
    idxLookup (replaceID idx e) e.ID = some e := by
  induction idx with
  | nil => simp [List.find?] at h
  | cons a t ih =>
    simp only [replaceID, List.map_cons]
    by_cases ha : a.ID = e.ID
    · rw [if_pos (by simpa using ha), idxLookup_cons, if_pos rfl]
    · rw [if_neg (by simpa using ha), idxLookup_cons, if_neg ha]
      refine ih ?_
      simp only [List.find?_cons, show (a.ID == e.ID) = false from by simpa using ha] at h
      exact h

theorem idxLookup_mergeEntry (idx : List manifestEntry) (e : manifestEntry)
    (id : String) :
    idxLookup (mergeEntry idx e) id =
      if id = e.ID then semMerge (idxLookup idx e.ID) e else idxLookup idx id := by
  cases hfind : idx.find? (fun p => p.ID == e.ID) with
  | none =>
    have hid : idxLookup idx e.ID = none := hfind
    simp only [mergeEntry, hfind]
    rw [idxLookup_append]
    by_cases h : id = e.ID
    · subst h
      rw [hid, if_pos rfl]
      simp [semMerge, idxLookup_cons, Option.orElse]
    · rw [if_neg h]
      have h1 : idxLookup [e] id = none := by
        rw [idxLookup_cons, if_neg (fun hx => h hx.symm)]
        rfl
      rw [h1]
      cases idxLookup idx id <;> rfl
  | some prev =>
    have hid : idxLookup idx e.ID = some prev := hfind
    simp only [mergeEntry, hfind]
    by_cases hlt : prev.ModTime < e.ModTime
    · rw [if_pos hlt]
      by_cases h : id = e.ID
      · subst h
        rw [if_pos rfl, hid]
        simp only [semMerge]
        rw [if_pos hlt]
        exact idxLookup_replaceID_found idx e prev hfind
      · rw [if_neg h]
        exact idxLookup_replaceID_ne idx e id h
    · rw [if_neg hlt]
      by_cases h : id = e.ID
      · subst h
        rw [if_pos rfl, hid]
        simp only [semMerge]
        rw [if_neg hlt]
      · rw [if_neg h]

theorem idxLookup_mergeList (l : List manifestEntry) (idx : List manifestEntry)
    (id : String) :
    idxLookup (mergeList idx l) id =
      (l.filter (fun e => e.ID == id)).foldl semMerge (idxLookup idx id) := by
  induction l generalizing idx with
  | nil => rfl
  | cons e t ih =>
    have hstep := idxLookup_mergeEntry idx e id
    by_cases h : e.ID = id
    · subst h
      rw [if_pos rfl] at hstep
      have hfil : (e :: t).filter (fun x => x.ID == e.ID) =
          e :: t.filter (fun x => x.ID == e.ID) := by
        simp [List.filter_cons]
      simp only [mergeList, List.foldl_cons]
      rw [show (List.foldl mergeEntry (mergeEntry idx e) t) = mergeList (mergeEntry idx e) t from rfl,
        ih, hstep, hfil, List.foldl_cons]
    · rw [if_neg (fun hx => h hx.symm)] at hstep
      have hfil : (e :: t).filter (fun x => x.ID == id) =
          t.filter (fun x => x.ID == id) := by
        simp [List.filter_cons, h]
      simp only [mergeList, List.foldl_cons]
      rw [show (List.foldl mergeEntry (mergeEntry idx e) t) = mergeList (mergeEntry idx e) t from rfl,
        ih, hstep, hfil]

theorem semMerge_some (p e : manifestEntry) :
    semMerge (some p) e = if p.ModTime < e.ModTime then some e else some p := rfl

theorem semMerge_swap (o : Option manifestEntry) (a b : manifestEntry)
    (hab : a.ModTime = b.ModTime → a = b) :
    semMerge (semMerge o a) b = semMerge (semMerge o b) a := by
  cases o with
  | none =>
    simp only [semMerge, semMerge_some]
    rcases Nat.lt_trichotomy a.ModTime b.ModTime with h | h | h
    · rw [if_pos h, if_neg (Nat.lt_asymm h)]
    · rw [if_neg (by omega), if_neg (by omega), hab h]
    · rw [if_neg (Nat.lt_asymm h), if_pos h]
  | some p =>
    simp only [semMerge_some]
    by_cases h1 : p.ModTime < a.ModTime <;> by_cases h2 : p.ModTime < b.ModTime
    · rw [if_pos h1, if_pos h2, semMerge_some, semMerge_some]
      rcases Nat.lt_trichotomy a.ModTime b.ModTime with h | h | h
      · rw [if_pos h, if_neg (Nat.lt_asymm h)]
      · rw [if_neg (by omega), if_neg (by omega), hab h]
      · rw [if_neg (Nat.lt_asymm h), if_pos h]
    · rw [if_pos h1, if_neg h2, semMerge_some, semMerge_some,
        if_neg (show ¬a.ModTime < b.ModTime by omega), if_pos h1]
    · rw [if_neg h1, if_pos h2, semMerge_some, semMerge_some, if_pos h2,
        if_neg (show ¬b.ModTime < a.ModTime by omega)]
    · rw [if_neg h1, if_neg h2, semMerge_some, semMerge_some, if_neg h2, if_neg h1]

theorem foldl_semMerge_perm {l1 l2 : List manifestEntry} (hp : l1.Perm l2) :
    (∀ a ∈ l1, ∀ b ∈ l1, a.ModTime = b.ModTime → a = b) →
      ∀ o : Option manifestEntry, l1.foldl semMerge o = l2.foldl semMerge o := by
  induction hp with
  | nil => intro _ _; rfl
  | cons x hp ih =>
    intro hc o
    simp only [List.foldl_cons]
    exact ih (fun a ha b hb => hc a (List.mem_cons_of_mem x ha)
      b (List.mem_cons_of_mem x hb)) _
  | swap x y t =>
    intro hc o
    simp only [List.foldl_cons]
    rw [semMerge_swap o y x (hc y (List.mem_cons_self y _) x
      (List.mem_cons_of_mem y (List.mem_cons_self x _)))]
  | trans h1 h2 ih1 ih2 =>
    intro hc o
    refine (ih1 hc o).trans (ih2 (fun a ha b hb => ?_) o)
    exact hc a (h1.mem_iff.mpr ha) b (h1.mem_iff.mpr hb)

theorem idxIDs_append (l1 l2 : List manifestEntry) :
    idxIDs (l1 ++ l2) = idxIDs l1 ++ idxIDs l2 := by
  simp [idxIDs]

theorem idxIDs_replaceID (idx : List manifestEntry) (e : manifestEntry) :
    idxIDs (replaceID idx e) = idxIDs idx := by
  induction idx with
  | nil => rfl
  | cons a t ih =>
    simp only [replaceID, idxIDs, List.map_cons] at ih ⊢
    by_cases ha : a.ID = e.ID
    · rw [if_pos (by simpa using ha), ih, ha]
    · rw [if_neg (by simpa using ha), ih]

theorem idxIDs_mergeEntry_nodup (idx : List manifestEntry) (e : manifestEntry)
    (h : (idxIDs idx).Nodup) : (idxIDs (mergeEntry idx e)).Nodup := by
  cases hfind : idx.find? (fun p => p.ID == e.ID) with
  | none =>
    simp only [mergeEntry, hfind]
    rw [idxIDs_append, List.nodup_append]
    refine ⟨h, List.nodup_singleton _, ?_⟩
    intro x hx hx1
    have hx2 : x = e.ID := by simpa [idxIDs] using hx1
    obtain ⟨p, hp, hpx⟩ := List.mem_map.mp hx
    have := List.find?_eq_none.mp hfind p hp
    exact this (by simp [hpx, hx2])
  | some prev =>
    simp only [mergeEntry, hfind]
    by_cases hlt : prev.ModTime < e.ModTime
    · rw [if_pos hlt, idxIDs_replaceID]
      exact h
    · rw [if_neg hlt]
      exact h

theorem idxIDs_mergeList_nodup (l : List manifestEntry) (idx : List manifestEntry)
    (h : (idxIDs idx).Nodup) : (idxIDs (mergeList idx l)).Nodup := by
  induction l generalizing idx with
  | nil => exact h
  | cons e t ih =>
    simp only [mergeList, List.foldl_cons]
    exact ih (mergeEntry idx e) (idxIDs_mergeEntry_nodup idx e h)

theorem idxLookup_eq_none_of_forall (t : List manifestEntry) (id : String)
    (h : ∀ p ∈ t, p.ID ≠ id) : idxLookup t id = none := by
  rw [idxLookup, List.find?_eq_none]
  intro x hx
  simpa using h x hx

theorem idxLookup_removeTombstones (idx : List manifestEntry)
    (h : (idxIDs idx).Nodup) (id : String) :
    idxLookup (removeTombstones idx) id =
      match idxLookup idx id with
      | none => none
      | some e => if e.Deleted then none else some e := by
  induction idx with
  | nil => rfl
  | cons a t ih =>
    have hct : a.ID ∉ List.map (fun e => e.ID) t ∧
        (List.map (fun e => e.ID) t).Nodup := by
      rw [show idxIDs (a :: t) = a.ID :: List.map (fun e => e.ID) t from rfl,
        List.nodup_cons] at h
      exact h
    have hn : (idxIDs t).Nodup := hct.2
    have hnm : a.ID ∉ idxIDs t := hct.1
    by_cases ha : a.ID = id
    · rw [idxLookup_cons, if_pos ha]
      by_cases hd : a.Deleted
      · have hrt : removeTombstones (a :: t) = removeTombstones t := by
          simp [removeTombstones, List.filter_cons, hd]
        rw [hrt, ih hn]
        have hnone : idxLookup t id = none := by
          refine idxLookup_eq_none_of_forall t id fun p hp hpid => ?_
          exact hnm (ha ▸ hpid ▸ List.mem_map.mpr ⟨p, hp, rfl⟩)
        rw [hnone]
        simp [hd]
      · have hrt : removeTombstones (a :: t) = a :: removeTombstones t := by
          simp [removeTombstones, List.filter_cons, hd]
        rw [hrt, idxLookup_cons, if_pos ha]
        simp [hd]
    · rw [idxLookup_cons, if_neg ha]
      by_cases hd : a.Deleted
      · have hrt : removeTombstones (a :: t) = removeTombstones t := by
          simp [removeTombstones, List.filter_cons, hd]
        rw [hrt, ih hn]
      · have hrt : removeTombstones (a :: t) = a :: removeTombstones t := by
          simp [removeTombstones, List.filter_cons, hd]
        rw [hrt, idxLookup_cons, if_neg ha, ih hn]

/-! Claim theorems. -/

/-- C1 (amended): merging the same multiset of persisted entries in any two
orders yields the same Entry Index after tombstone removal, provided no two
distinct entries share an id with equal mod_time (the source's merge keeps
the incumbent on equal timestamps, so colliding timestamps make the result
order-dependent).  Index equality is stated as equality of lookup at every
id, which is map equality for the Go map the index models. -/
theorem mergeOrder_independent {l1 l2 : List manifestEntry} (hp : l1.Perm l2)
    (hc : ∀ a ∈ l1, ∀ b ∈ l1, a.ID = b.ID → a.ModTime = b.ModTime → a = b)
    (id : String) :
    idxLookup (removeTombstones (mergeList [] l1)) id =
      idxLookup (removeTombstones (mergeList [] l2)) id := by
  have hn1 : (idxIDs (mergeList [] l1)).Nodup :=
    idxIDs_mergeList_nodup l1 [] (by simp [idxIDs])
  have hn2 : (idxIDs (mergeList [] l2)).Nodup :=
    idxIDs_mergeList_nodup l2 [] (by simp [idxIDs])
  rw [idxLookup_removeTombstones _ hn1 id, idxLookup_removeTombstones _ hn2 id]
  have hml : idxLookup (mergeList [] l1) id = idxLookup (mergeList [] l2) id := by
    rw [idxLookup_mergeList, idxLookup_mergeList]
    refine foldl_semMerge_perm (hp.filter _) ?_ _
    intro a ha b hb hmt
    have ha2 := List.mem_filter.mp ha
    have hb2 := List.mem_filter.mp hb
    have haid : a.ID = id := by simpa using ha2.2
    have hbid : b.ID = id := by simpa using hb2.2
    exact hc a ha2.1 b hb2.1 (haid.trans hbid.symm) hmt
  rw [hml]

/-- C1 witness: two entries with distinct ids merge to the same index in
either order. -/
theorem mergeOrder_independent_witness :
    idxLookup (removeTombstones (mergeList [] [went1, went2])) "a" =
      idxLookup (removeTombstones (mergeList [] [went2, went1])) "a" :=
  mergeOrder_independent (List.Perm.swap went2 went1 []) (by decide) "a"

/-- C1 counterexample: a live entry and a tombstone for the same id with
equal mod_time.  Merged in one order the live entry survives tombstone
removal; in the other order the index ends empty, so the final Entry Index
depends on the merge order. -/
theorem mergeOrder_counterexample :
    idxLookup (removeTombstones (mergeList [] [cexLive, cexTomb])) "a" ≠
      idxLookup (removeTombstones (mergeList [] [cexTomb, cexLive])) "a" := by
  decide

/-- C2 (amended): `Find` returns exactly the metadata of the index entries
every one of whose query pairs reads equal under Go's zero-value label
lookup (a missing key reads as the empty string, so presence is not
required when the queried value is empty; the empty query matches all), and
the result is sorted ascending by mod_time. -/
theorem find_characterization (idx : List manifestEntry)
    (q : List (String × String)) :
    (∀ md : EntryMetadata, md ∈ Find idx q ↔
        ∃ e ∈ idx, matchesLabels e.Labels q = true ∧ md = cloneEntryMetadata e) ∧
      List.Sorted (fun x y => x.ModTime ≤ y.ModTime) (Find idx q) := by
  constructor
  · intro md
    rw [Find, List.mem_insertionSort]
    simp only [List.mem_map, List.mem_filter]
    constructor
    · rintro ⟨e, ⟨he, hm⟩, hclone⟩
      exact ⟨e, he, hm, hclone.symm⟩
    · rintro ⟨e, he, hm, hclone⟩
      exact ⟨e, ⟨he, hm⟩, hclone.symm⟩
  · exact List.sorted_insertionSort _ _

/-- C2 counterexample: the query pair `("host", "")` is not present in the
entry's labels, yet `Find` returns the entry, because Go's map lookup reads
the missing key as the empty string. -/
theorem find_presence_counterexample :
    Find [c2Entry] c2Query = [cloneEntryMetadata c2Entry] ∧
      specMatchesLabels c2Entry.Labels c2Query = false := by
  constructor
  · rfl
  · rfl

/-- C4: merging entry `b` over incumbent `a` with the same id replaces `a`
exactly when `b`'s mod_time is strictly greater; on equal or smaller
mod_time the incumbent is retained.  The statement quantifies over all
entries, tombstone or live. -/
theorem mergeEntry_strictly_newer_wins (idx : List manifestEntry)
    (a b : manifestEntry) (h : idxLookup idx b.ID = some a) :
    idxLookup (mergeEntry idx b) b.ID =
      if a.ModTime < b.ModTime then some b else some a := by
  rw [idxLookup_mergeEntry, if_pos rfl, h]
  rfl

/-- C4 witness: a strictly newer entry for id "a" replaces the incumbent. -/
theorem mergeEntry_strictly_newer_wins_witness :
    idxLookup (mergeEntry [went1] went3) went3.ID = some went3 := by
  have h := mergeEntry_strictly_newer_wins [went1] went1 went3 (by decide)
  rw [if_pos (by decide)] at h
  exact h

/-- C7 (amended): a fetched block is parsed directly as JSON exactly when it
is longer than two bytes and its first byte is an opening brace; otherwise
(including braces shorter than three bytes) it goes down the gzip path; and
every failure carries the offending block id. -/
theorem loadManifestBlock_format (c : Codec) (bs : BlockStore) (id : String) :
    (∀ e, loadManifestBlock c bs id = .error e → e.bid = id) ∧
      (∀ blk, bs.getBlock id = .ok blk → 2 < blk.length → blk.headD 0 = 123 →
        loadManifestBlock c bs id =
          match c.jsonParse blk with
          | .error s => .error (.parseError id s)
          | .ok man => .ok man) ∧
      (∀ blk, bs.getBlock id = .ok blk → ¬(2 < blk.length ∧ blk.headD 0 = 123) →
        loadManifestBlock c bs id =
          match c.gzipDecode blk with
          | .error s => .error (.unpackError id s)
          | .ok unz =>
            match c.jsonParse unz with
            | .error s => .error (.parseError id s)
            | .ok man => .ok man) := by
  refine ⟨?_, ?_, ?_⟩
  · intro e he
    unfold loadManifestBlock at he
    cases hg : bs.getBlock id with
    | error s =>
      simp only [hg] at he
      injection he with h2
      rw [← h2]
      rfl
    | ok blk =>
      simp only [hg] at he
      by_cases hcond : (decide (2 < blk.length) && (blk.headD 0 == 123)) = true
      · rw [if_pos hcond] at he
        cases hj : c.jsonParse blk with
        | error s =>
          simp only [hj] at he
          injection he with h2
          rw [← h2]
          rfl
        | ok man =>
          simp only [hj] at he
          exact absurd he (by simp)
      · rw [if_neg hcond] at he
        cases hgz : c.gzipDecode blk with
        | error s =>
          simp only [hgz] at he
          injection he with h2
          rw [← h2]
          rfl
        | ok unz =>
          simp only [hgz] at he
          cases hj : c.jsonParse unz with
          | error s =>
            simp only [hj] at he
            injection he with h2
            rw [← h2]
            rfl
          | ok man =>
            simp only [hj] at he
            exact absurd he (by simp)
  · intro blk hg hlen hhead
    unfold loadManifestBlock
    simp only [hg]
    have hcond : (decide (2 < blk.length) && (blk.headD 0 == 123)) = true := by
      rw [Bool.and_eq_true, decide_eq_true_eq, beq_iff_eq]
      exact ⟨hlen, hhead⟩
    rw [if_pos hcond]
  · intro blk hg hn
    unfold loadManifestBlock
    simp only [hg]
    have hb : ¬((decide (2 < blk.length) && (blk.headD 0 == 123)) = true) := by
      rw [Bool.and_eq_true, decide_eq_true_eq, beq_iff_eq]
      exact hn
    rw [if_neg hb]

/-- C7 counterexample: the two-byte block of bytes 123, 125 (the JSON text
of an empty object, first byte an opening brace) is not accepted via the
uncompressed path: the source requires the block to be longer than two
bytes, so the block is sent down the gzip path and fails, although the JSON
parser accepts those bytes. -/
theorem loadManifestBlock_short_brace_counterexample :
    c7Codec.jsonParse [123, 125] = .ok [] ∧
      loadManifestBlock c7Codec c7Store "b1" =
        .error (.unpackError "b1" "invalid gzip header") := by
  constructor
  · rfl
  · rfl

/-! Equations for the flush path. -/

theorem flushPending_empty (bs : BlockStore) (m : ManagerState)
    (h : m.pendingEntries = []) :
    flushPendingEntriesLocked bs m =
      { state := m, blockID := "", wrote := false, err := none } := by
  unfold flushPendingEntriesLocked
  rw [if_pos (by simp [h])]

theorem flushPending_writeError (bs : BlockStore) (m : ManagerState) (e : String)
    (h1 : m.pendingEntries ≠ []) (h2 : bs.writeBlock m.pendingEntries = .error e) :
    flushPendingEntriesLocked bs m =
      { state := m, blockID := "", wrote := false, err := some e } := by
  unfold flushPendingEntriesLocked
  rw [if_neg (by simpa [List.isEmpty_iff] using h1), h2]

theorem flushPending_ok (bs : BlockStore) (m : ManagerState) (bid : String)
    (h1 : m.pendingEntries ≠ []) (h2 : bs.writeBlock m.pendingEntries = .ok bid) :
    flushPendingEntriesLocked bs m =
      { state := { m with pendingEntries := [] }, blockID := bid, wrote := true,
        err := none } := by
  unfold flushPendingEntriesLocked
  rw [if_neg (by simpa [List.isEmpty_iff] using h1), h2]

theorem flushPending_entries (bs : BlockStore) (m : ManagerState) :
    (flushPendingEntriesLocked bs m).state.entries = m.entries := by
  unfold flushPendingEntriesLocked
  by_cases h : m.pendingEntries.isEmpty = true
  · rw [if_pos h]
  · rw [if_neg h]
    cases bs.writeBlock m.pendingEntries <;> rfl

theorem Flush_empty (bs : BlockStore) (m : ManagerState)
    (h : m.pendingEntries = []) : Flush bs m = (m, none) := by
  unfold Flush
  rw [flushPending_empty bs m h]
  rfl

theorem Flush_writeError (bs : BlockStore) (m : ManagerState) (e : String)
    (h1 : m.pendingEntries ≠ []) (h2 : bs.writeBlock m.pendingEntries = .error e) :
    Flush bs m = (m, some e) := by
  unfold Flush
  rw [flushPending_writeError bs m e h1 h2]

theorem Flush_ok_emptyID (bs : BlockStore) (m : ManagerState)
    (h1 : m.pendingEntries ≠ []) (h2 : bs.writeBlock m.pendingEntries = .ok "") :
    Flush bs m = ({ m with pendingEntries := [] }, none) := by
  unfold Flush
  rw [flushPending_ok bs m "" h1 h2]
  rfl

theorem Flush_ok (bs : BlockStore) (m : ManagerState) (bid : String)
    (h1 : m.pendingEntries ≠ []) (h2 : bs.writeBlock m.pendingEntries = .ok bid)
    (h3 : bid ≠ "") :
    Flush bs m =
      ({ m with pendingEntries := [], blockIDs := m.blockIDs ++ [bid] }, none) := by
  unfold Flush
  rw [flushPending_ok bs m bid h1 h2]
  simp only []
  rw [if_neg (by simpa using h3)]

theorem Flush_entries (bs : BlockStore) (m : ManagerState) :
    (Flush bs m).fst.entries = m.entries := by
  unfold Flush
  cases hf : flushPendingEntriesLocked bs m with
  | mk m2 b w err =>
    have he : m2.entries = m.entries := by
      have h0 := flushPending_entries bs m
      rw [hf] at h0
      exact h0
    cases err with
    | some e => exact he
    | none =>
      by_cases hb : (b == "") = true
      · simp only [if_pos hb]
        exact he
      · simp only [if_neg hb]
        exact he

/-! C3 and C5. -/

/-- C3 (amended): a failing `Flush` leaves the manager exactly in the state
it had on entry, but a `load` that fails at block listing or at
fetching/parsing a block leaves the Entry Index cleared (empty), not equal
to the index the manager had on entry: the source clears the index before
it reaches the store. -/
theorem load_failure_states (c : Codec) (bs : BlockStore) (m : ManagerState) :
    (∀ s, (Flush bs m).snd = some s → (Flush bs m).fst = m) ∧
      (∀ s, (Flush bs m).snd = none → bs.listBlocks = .error s →
        (load c bs m).snd.isSome = true ∧ (load c bs m).fst.entries = []) ∧
      (∀ bl e2, (Flush bs m).snd = none → bs.listBlocks = .ok bl →
        fetchAll c bs bl = .error e2 →
        (load c bs m).snd.isSome = true ∧ (load c bs m).fst.entries = []) := by
  refine ⟨?_, ?_, ?_⟩
  · intro s hs
    by_cases hp : m.pendingEntries = []
    · rw [Flush_empty bs m hp] at hs
      exact absurd hs (by simp)
    · cases hwb : bs.writeBlock m.pendingEntries with
      | error e => rw [Flush_writeError bs m e hp hwb]
      | ok bid =>
        by_cases hb : bid = ""
        · rw [hb] at hwb
          rw [Flush_ok_emptyID bs m hp hwb] at hs
          exact absurd hs (by simp)
        · rw [Flush_ok bs m bid hp hwb hb] at hs
          exact absurd hs (by simp)
  · intro s hn hl
    cases hF : Flush bs m with
    | mk m1 err1 =>
      have hn2 : err1 = none := by
        rw [hF] at hn
        exact hn
      subst hn2
      constructor
      · simp only [load, loadListed, hF, hl]
        rfl
      · simp only [load, loadListed, hF, hl]
  · intro bl e2 hn hl hfe
    cases hF : Flush bs m with
    | mk m1 err1 =>
      have hn2 : err1 = none := by
        rw [hF] at hn
        exact hn
      subst hn2
      constructor
      · simp only [load, loadListed, loadFromBlocks, loadManifestBlocks, hF, hl, hfe]
        rfl
      · simp only [load, loadListed, loadFromBlocks, loadManifestBlocks, hF, hl, hfe]

/-- C3 counterexample: a manager holding one live entry whose load fails at
block listing; the load fails, yet the Entry Index ends empty instead of
equal to the index on entry. -/
theorem load_clears_index_counterexample :
    (load trivialCodec failStore c3State).snd.isSome = true ∧
      (load trivialCodec failStore c3State).fst.entries ≠ c3State.entries := by
  constructor
  · rfl
  · decide

/-- C5: a flush either succeeds, clearing the Mutation Log and appending
exactly one id to Known Blocks when the log was non-empty (and touching
nothing when it was empty), or fails, leaving the manager exactly as it was
on entry.  The hypothesis reflects the block-store contract: a written
block's content-addressed id is never the empty string (the source prefixes
every manifest block id with the namespace character). -/
theorem flush_contract (bs : BlockStore) (m : ManagerState)
    (hw : ∀ es bid, bs.writeBlock es = .ok bid → bid ≠ "") :
    flushContract bs m := by
  unfold flushContract
  by_cases hp : m.pendingEntries = []
  · rw [Flush_empty bs m hp]
    exact ⟨fun _ => ⟨hp, rfl, fun _ => rfl, fun hne => absurd hp hne⟩,
      fun s hs => absurd hs (by simp)⟩
  · cases hwb : bs.writeBlock m.pendingEntries with
    | error e =>
      rw [Flush_writeError bs m e hp hwb]
      exact ⟨fun h => absurd h (by simp), fun s _ => rfl⟩
    | ok bid =>
      have hne := hw _ _ hwb
      rw [Flush_ok bs m bid hp hwb hne]
      exact ⟨fun _ => ⟨rfl, rfl, fun hpe => absurd hpe hp, fun _ => ⟨bid, rfl⟩⟩,
        fun s hs => absurd hs (by simp)⟩

/-- C5 witness: flushing one pending entry against a store that writes it
as block "b-new". -/
theorem flush_contract_witness : flushContract okStore c5State :=
  flush_contract okStore c5State (by
    intro es bid h
    injection h with h2
    rw [← h2]
    decide)

/-! Compaction lemmas and claims C6, C8, C10. -/

theorem deleteLoop_keep_not_mem (bs : BlockStore) (keep : String)
    (l : List String) : keep ∉ (deleteLoop bs keep l).fst := by
  induction l with
  | nil =>
    intro hx
    simp [deleteLoop] at hx
  | cons b rest ih =>
    unfold deleteLoop
    by_cases hb : (b == keep) = true
    · rw [if_pos hb]
      exact ih
    · rw [if_neg hb]
      have hbn : b ≠ keep := by simpa using hb
      cases bs.deleteBlock b with
      | some e =>
        intro hx
        exact hbn (List.mem_singleton.mp hx).symm
      | none =>
        cases hr : deleteLoop bs keep rest with
        | mk ds e2 =>
          intro hx
          rcases List.mem_cons.mp hx with h1 | h2
          · exact hbn h1.symm
          · rw [hr] at ih
            exact ih h2

theorem deleteLoop_all_ok (bs : BlockStore) (keep : String) (l : List String)
    (h : ∀ b ∈ l, b ≠ keep → bs.deleteBlock b = none) :
    (deleteLoop bs keep l).snd = none := by
  induction l with
  | nil => rfl
  | cons b rest ih =>
    unfold deleteLoop
    by_cases hb : (b == keep) = true
    · rw [if_pos hb]
      exact ih fun x hx hxk => h x (List.mem_cons_of_mem b hx) hxk
    · rw [if_neg hb]
      have hbn : b ≠ keep := by simpa using hb
      rw [h b (List.mem_cons_self b rest) hbn]
      cases hr : deleteLoop bs keep rest with
      | mk ds e2 =>
        have h0 := ih fun x hx hxk => h x (List.mem_cons_of_mem b hx) hxk
        rw [hr] at h0
        exact h0

theorem compactFinish_entries (bs : BlockStore) (m2 : ManagerState) (b : String)
    (w : Bool) : (compactFinish bs m2 b w).state.entries = m2.entries := by
  unfold compactFinish
  cases hd : deleteLoop bs b (m2.blockIDs ++ [b]) with
  | mk ds e2 => cases e2 <;> rfl

theorem compactFinish_ok_blockIDs (bs : BlockStore) (m2 : ManagerState)
    (b : String) (w : Bool) (h : (compactFinish bs m2 b w).err = none) :
    (compactFinish bs m2 b w).state.blockIDs = [b] := by
  unfold compactFinish at h ⊢
  cases hd : deleteLoop bs b (m2.blockIDs ++ [b]) with
  | mk ds e2 =>
    rw [hd] at h
    cases e2 with
    | some e => simp at h
    | none => rfl

theorem compactFinish_written_not_deleted (bs : BlockStore) (m2 : ManagerState)
    (b : String) (w : Bool) (b2 : String)
    (h : (compactFinish bs m2 b w).written = some b2) :
    b2 ∉ (compactFinish bs m2 b w).deleted := by
  unfold compactFinish at h ⊢
  cases hd : deleteLoop bs b (m2.blockIDs ++ [b]) with
  | mk ds e2 =>
    have hds : ds = (deleteLoop bs b (m2.blockIDs ++ [b])).fst := by rw [hd]
    rw [hd] at h
    cases e2 with
    | some e =>
      cases w with
      | false => simp at h
      | true =>
        have hb2 : b = b2 := by simpa using h
        show b2 ∉ ds
        rw [← hb2, hds]
        exact deleteLoop_keep_not_mem bs b _
    | none =>
      cases w with
      | false => simp at h
      | true =>
        have hb2 : b = b2 := by simpa using h
        show b2 ∉ ds
        rw [← hb2, hds]
        exact deleteLoop_keep_not_mem bs b _

theorem compactFinish_no_write (bs : BlockStore) (m2 : ManagerState)
    (h4 : ∀ b ∈ m2.blockIDs, b ≠ "" → bs.deleteBlock b = none) :
    (compactFinish bs m2 "" false).err = none ∧
      (compactFinish bs m2 "" false).written = none ∧
      (compactFinish bs m2 "" false).state.blockIDs = [""] := by
  unfold compactFinish
  have hdel : (deleteLoop bs "" (m2.blockIDs ++ [""])).snd = none := by
    apply deleteLoop_all_ok
    intro b hb hbne
    rcases List.mem_append.mp hb with hbm | hbs
    · exact h4 b hbm hbne
    · exact absurd (List.mem_singleton.mp hbs) hbne
  cases hd : deleteLoop bs "" (m2.blockIDs ++ [""]) with
  | mk ds e2 =>
    rw [hd] at hdel
    have he2 : e2 = none := hdel
    subst he2
    exact ⟨rfl, rfl, rfl⟩

theorem compact_entries (bs : BlockStore) (m : ManagerState) :
    (compactLocked bs m).state.entries = m.entries := by
  unfold compactLocked
  by_cases hcond : (m.blockIDs.length == 1 && m.pendingEntries.isEmpty) = true
  · rw [if_pos hcond]
  · rw [if_neg hcond]
    cases hf : flushPendingEntriesLocked bs
        { m with pendingEntries := m.pendingEntries ++ m.entries } with
    | mk m2 b w err =>
      have he : m2.entries = m.entries := by
        have h0 := flushPending_entries bs
          { m with pendingEntries := m.pendingEntries ++ m.entries }
        rw [hf] at h0
        exact h0
      cases err with
      | some e => exact he
      | none => exact (compactFinish_entries bs m2 b w).trans he

/-- C6: when compaction succeeds, Known Blocks has length exactly one and
the Entry Index is exactly the pre-compaction Entry Index. -/
theorem compact_success (bs : BlockStore) (m : ManagerState)
    (h : (Compact bs m).err = none) :
    (Compact bs m).state.blockIDs.length = 1 ∧
      (Compact bs m).state.entries = m.entries := by
  refine ⟨?_, compact_entries bs m⟩
  unfold Compact compactLocked at h ⊢
  by_cases hcond : (m.blockIDs.length == 1 && m.pendingEntries.isEmpty) = true
  · rw [if_pos hcond]
    have hp := hcond
    rw [Bool.and_eq_true] at hp
    simpa using hp.1
  · rw [if_neg hcond] at h ⊢
    cases hf : flushPendingEntriesLocked bs
        { m with pendingEntries := m.pendingEntries ++ m.entries } with
    | mk m2 b w err =>
      rw [hf] at h
      cases err with
      | some e =>
        have h2 : (some e : Option String) = none := h
        simp at h2
      | none =>
        have h2 : (compactFinish bs m2 b w).err = none := h
        show (compactFinish bs m2 b w).state.blockIDs.length = 1
        rw [compactFinish_ok_blockIDs bs m2 b w h2]
        rfl

/-- C6 witness: an already-compact manager (one known block, empty log). -/
theorem compact_success_witness :
    (Compact okStore c6State).state.blockIDs.length = 1 ∧
      (Compact okStore c6State).state.entries = c6State.entries :=
  compact_success okStore c6State rfl

/-- C8: the compactor never invokes delete on the block the compaction
flush just wrote. -/
theorem compact_written_not_deleted (bs : BlockStore) (m : ManagerState)
    (b2 : String) (h : (Compact bs m).written = some b2) :
    b2 ∉ (Compact bs m).deleted := by
  unfold Compact compactLocked at h ⊢
  by_cases hcond : (m.blockIDs.length == 1 && m.pendingEntries.isEmpty) = true
  · rw [if_pos hcond] at h
    simp at h
  · rw [if_neg hcond] at h ⊢
    cases hf : flushPendingEntriesLocked bs
        { m with pendingEntries := m.pendingEntries ++ m.entries } with
    | mk m2 b w err =>
      rw [hf] at h
      cases err with
      | some e =>
        have h2 : (none : Option String) = some b2 := h
        simp at h2
      | none =>
        have h2 : (compactFinish bs m2 b w).written = some b2 := h
        show b2 ∉ (compactFinish bs m2 b w).deleted
        exact compactFinish_written_not_deleted bs m2 b w b2 h2

/-- C8 witness: compacting a state with one old block and one pending entry
writes "b-new" and deletes only the old block. -/
theorem compact_written_not_deleted_witness :
    "b-new" ∉ (Compact okStore c8State).deleted :=
  compact_written_not_deleted okStore c8State "b-new" rfl

/-- C10: compacting a manager whose Entry Index and Mutation Log are both
empty while Known Blocks does not have length one writes no block, yet
(given the deletions succeed) ends with Known Blocks equal to the
one-element list holding the empty block identifier: the source appends the
sentinel empty id returned by the empty flush and keeps it. -/
theorem compact_empty_writes_nothing (bs : BlockStore) (m : ManagerState)
    (h1 : m.entries = []) (h2 : m.pendingEntries = [])
    (h3 : m.blockIDs.length ≠ 1)
    (h4 : ∀ b ∈ m.blockIDs, b ≠ "" → bs.deleteBlock b = none) :
    (Compact bs m).err = none ∧ (Compact bs m).written = none ∧
      (Compact bs m).state.blockIDs = [""] := by
  unfold Compact compactLocked
  have hcond : ¬((m.blockIDs.length == 1 && m.pendingEntries.isEmpty) = true) := by
    rw [Bool.and_eq_true]
    rintro ⟨ha, _⟩
    exact h3 (by simpa using ha)
  rw [if_neg hcond]
  have hm1 : ({ m with pendingEntries := m.pendingEntries ++ m.entries } :
      ManagerState).pendingEntries = [] := by
    simp [h1, h2]
  rw [flushPending_empty bs _ hm1]
  exact compactFinish_no_write bs
    { m with pendingEntries := m.pendingEntries ++ m.entries } h4

/-- C10 witness: two known blocks, empty index and log, deletes succeed. -/
theorem compact_empty_writes_nothing_witness :
    (Compact okStore c10State).err = none ∧
      (Compact okStore c10State).written = none ∧
      (Compact okStore c10State).state.blockIDs = [""] :=
  compact_empty_writes_nothing okStore c10State rfl rfl (by decide)
    (fun b _ _ => rfl)

/-! C9: no operation ever leaves a tombstone in the Entry Index. -/

theorem noTombstones_removeTombstones (idx : List manifestEntry) :
    noTombstones (removeTombstones idx) := by
  intro x hx
  have h2 := List.mem_filter.mp hx
  simpa using h2.2

theorem noTombstones_idxInsert (idx : List manifestEntry) (e : manifestEntry)
    (h : noTombstones idx) (he : e.Deleted = false) :
    noTombstones (idxInsert idx e) := by
  unfold idxInsert
  cases idx.find? (fun p => p.ID == e.ID) with
  | none =>
    intro x hx
    rcases List.mem_append.mp hx with hx1 | hx2
    · exact h x hx1
    · rw [List.mem_singleton.mp hx2]
      exact he
  | some prev =>
    intro x hx
    obtain ⟨p, hp, hpx⟩ := List.mem_map.mp hx
    by_cases hid : (p.ID == e.ID) = true
    · rw [← hpx, if_pos hid]
      exact he
    · rw [← hpx, if_neg hid]
      exact h p hp

theorem loadManifestBlocks_noTomb (c : Codec) (bs : BlockStore)
    (m : ManagerState) (blocks : List String) (h : noTombstones m.entries) :
    noTombstones (loadManifestBlocks c bs m blocks).fst.entries := by
  unfold loadManifestBlocks
  cases fetchAll c bs blocks with
  | error e => exact h
  | ok manifests => exact noTombstones_removeTombstones _

theorem loadAutoCompact_noTomb (bs : BlockStore) (m3 : ManagerState)
    (blocks : List String) (h3 : noTombstones m3.entries) :
    noTombstones (loadAutoCompact bs m3 blocks).fst.entries := by
  unfold loadAutoCompact
  by_cases hlen : autoCompactionBlockCount < blocks.length
  · rw [if_pos hlen]
    cases hC : compactLocked bs m3 with
    | mk ms w d errC =>
      have hce : ms.entries = m3.entries := by
        have h0 := compact_entries bs m3
        rw [hC] at h0
        exact h0
      cases errC with
      | some e =>
        show noTombstones ms.entries
        rw [hce]
        exact h3
      | none =>
        cases bs.storeFlush with
        | some e =>
          show noTombstones ms.entries
          rw [hce]
          exact h3
        | none =>
          show noTombstones ms.entries
          rw [hce]
          exact h3
  · rw [if_neg hlen]
    exact h3

theorem loadFromBlocks_noTomb (c : Codec) (bs : BlockStore) (m1 : ManagerState)
    (blocks : List String) :
    noTombstones (loadFromBlocks c bs m1 blocks).fst.entries := by
  unfold loadFromBlocks
  cases hlmb : loadManifestBlocks c bs { m1 with entries := [] } blocks with
  | mk m3 err3 =>
    have h3 : noTombstones m3.entries := by
      have h0 := loadManifestBlocks_noTomb c bs { m1 with entries := [] }
        blocks (fun x hx => absurd hx (List.not_mem_nil x))
      rw [hlmb] at h0
      exact h0
    cases err3 with
    | some e => exact h3
    | none => exact loadAutoCompact_noTomb bs m3 blocks h3

theorem loadListed_noTomb (c : Codec) (bs : BlockStore) (m1 : ManagerState) :
    noTombstones (loadListed c bs m1).fst.entries := by
  unfold loadListed
  cases bs.listBlocks with
  | error e =>
    intro x hx
    cases hx
  | ok blocks => exact loadFromBlocks_noTomb c bs m1 blocks

theorem load_noTomb (c : Codec) (bs : BlockStore) (m : ManagerState)
    (hm : noTombstones m.entries) : noTombstones (load c bs m).fst.entries := by
  unfold load
  cases hF : Flush bs m with
  | mk m1 err1 =>
    have hent : m1.entries = m.entries := by
      have h0 := Flush_entries bs m
      rw [hF] at h0
      exact h0
    cases err1 with
    | some e =>
      show noTombstones m1.entries
      rw [hent]
      exact hm
    | none => exact loadListed_noTomb c bs m1

/-- C9: starting from a tombstone-free Entry Index, every state-changing
public operation (`Put`, `Delete`, `Flush`, `Compact`, `load` — the latter
also covering manager construction) leaves the Entry Index tombstone-free;
the read operations do not mutate the state.  Tombstones live only in the
Mutation Log and in persisted blocks. -/
theorem operations_preserve_tombstone_freedom (m : ManagerState)
    (hm : noTombstones m.entries) : preservesTombstoneFreedom m := by
  refine ⟨?_, ?_, ?_, ?_, ?_⟩
  · intro labels content id now id2 m2 hput
    unfold Put at hput
    by_cases ht : (goLookup labels "type" == "") = true
    · rw [if_pos ht] at hput
      exact absurd hput (by simp)
    · rw [if_neg ht] at hput
      injection hput with h2
      injection h2 with ha hb
      rw [← hb]
      exact noTombstones_idxInsert m.entries _ hm rfl
  · intro id now
    unfold Delete
    cases idxLookup m.entries id with
    | none => exact hm
    | some e =>
      intro x hx
      exact hm x (List.mem_filter.mp hx).1
  · intro bs
    rw [Flush_entries bs m]
    exact hm
  · intro bs
    rw [show (Compact bs m).state.entries = m.entries from compact_entries bs m]
    exact hm
  · intro c bs
    exact load_noTomb c bs m hm

/-- C9 witness: the freshly constructed empty manager state. -/
theorem operations_preserve_tombstone_freedom_witness :
    preservesTombstoneFreedom emptyState :=
  operations_preserve_tombstone_freedom emptyState
    (fun e he => absurd he (List.not_mem_nil e))

end KopiaManifest
